import Mathlib

/-!
Verification of the CoderComm mock server's feed assembly and pagination
engine (server.js), shallowly embedded in Lean.

Modelling conventions:
* JS arrays become `List`, JS objects become structures.
* `createdAt` timestamps are modelled as `Int` (the epoch milliseconds that
  `new Date(s)` yields for the stored ISO strings; the sort comparator only
  ever uses this numeric value).
* JS `Array.prototype.sort` is stable (ECMA-262); a stable sort under the
  comparator `(a, b) => date(b) - date(a)` is embedded as
  `List.insertionSort` with the relation `date(b) ≤ date(a)`, which is the
  canonical stable descending sort.
* Code that can throw a `TypeError` (e.g. `author._id` when
  `db.users.find(...)` returned `undefined`) is embedded in `Option`:
  `none` is the thrown exception that the surrounding `catchError`
  middleware converts into a 500 response.
* JS `if (cursor)` tests truthiness: an absent cursor (`undefined`) and the
  empty string are both falsy, so both are embedded as taking the
  `startIndex = 0` branch.
-/

namespace CoderComm

/-- A user record (the fields the core reads). -/
structure User where
  _id : String
  name : String
  avatarUrl : String
  deriving Repr, DecidableEq

/-- A post record. `author` is a user id (weak reference). -/
structure Post where
  _id : String
  author : String
  content : String
  createdAt : Int
  deriving Repr, DecidableEq

/-- A comment record. `post` is a post id, `author` a user id. -/
structure Comment where
  _id : String
  post : String
  author : String
  content : String
  createdAt : Int
  deriving Repr, DecidableEq

/-- A reaction record. `targetType` is "POST" or "COMMENT". -/
structure Reaction where
  _id : String
  targetType : String
  targetId : String
  author : String
  emoji : String
  deriving Repr, DecidableEq

/-- A friendship edge. JS fields `from`/`to` are rendered `fromId`/`toId`
(`from` is a Lean keyword); `status` is "PENDING" or "ACCEPTED". -/
structure Friendship where
  _id : String
  fromId : String
  toId : String
  status : String
  deriving Repr, DecidableEq

/-- The in-memory store `db` of server.js. -/
structure Db where
  users : List User
  posts : List Post
  comments : List Comment
  reactions : List Reaction
  friendships : List Friendship
  deriving Repr, DecidableEq

/-! ### Sorting

`feedPosts.sort((a, b) => new Date(b.createdAt) - new Date(a.createdAt))`:
a stable sort, descending by `createdAt`. -/

/-- The relation under which the JS comparator `date(b) - date(a)` sorts:
`a` may precede `b` iff `b.createdAt ≤ a.createdAt`. -/
def descBy (key : α → Int) (a b : α) : Prop :=
  key b ≤ key a

instance (key : α → Int) : DecidableRel (descBy key) :=
  fun a b => inferInstanceAs (Decidable (key b ≤ key a))

instance (key : α → Int) : IsTotal α (descBy key) :=
  ⟨fun a b => le_total (key b) (key a)⟩

instance (key : α → Int) : IsTrans α (descBy key) :=
  ⟨fun _ _ _ h h' => le_trans h' h⟩

/-- Stable descending-by-`createdAt` sort, the embedding of the JS
`.sort((a, b) => new Date(b.createdAt) - new Date(a.createdAt))` calls. -/
def sortDesc (key : α → Int) (l : List α) : List α :=
  l.insertionSort (descBy key)

/-! ### The cursor paginator -/

/-- JS `Array.prototype.findIndex`, with `-1` rendered as `none`. -/
def findIdxOf (p : α → Bool) : List α → Option Nat
  | [] => none
  | a :: l => if p a then some 0 else (findIdxOf p l).map (· + 1)

/-- The `startIndex` computation shared by all three listings:
`let startIndex = 0; if (cursor) { const i = seq.findIndex(x => x._id === cursor); if (i !== -1) startIndex = i + 1; }`.
`if (cursor)` is JS truthiness, so the empty string behaves like no cursor. -/
def startIndexFor (seq : List α) (getId : α → String) (cursor : Option String) : Nat :=
  match cursor with
  | none => 0
  | some c =>
    if c = "" then 0
    else
      match findIdxOf (fun x => getId x == c) seq with
      | some i => i + 1
      | none => 0

/-- A page, the `{items, nextCursor, hasMore}` triple of the response. -/
structure Page (α : Type) where
  items : List α
  nextCursor : Option String
  hasMore : Bool
  deriving Repr, DecidableEq

/-- The cursor paginator applied to an ordered candidate sequence:
`endIndex = startIndex + limit`, `items = seq.slice(startIndex, endIndex)`,
`hasMore = count - endIndex > 0` (JS number arithmetic, hence `Int`),
`nextCursor = hasMore ? items[items.length - 1]._id : null`. -/
def paginate (seq : List α) (getId : α → String) (cursor : Option String) (limit : Nat) :
    Page α :=
  let count := seq.length
  let startIndex := startIndexFor seq getId cursor
  let endIndex := startIndex + limit
  let items := (seq.drop startIndex).take limit
  let hasMore : Bool := decide ((count : Int) - (endIndex : Int) > 0)
  { items := items
    hasMore := hasMore
    nextCursor := if hasMore then items.getLast?.map getId else none }

/-! ### Enrichment

`const author = db.users.find((u) => u._id === post.author);` followed by
`author: { _id: author._id, name: author.name, avatarUrl: author.avatarUrl }`.
There is no null guard: a missing author makes `author._id` throw, which is
rendered by `Option` (`none` = exception, caught upstream as a 500). -/

/-- The embedded `{_id, name, avatarUrl}` author summary. -/
structure AuthorView where
  _id : String
  name : String
  avatarUrl : String
  deriving Repr, DecidableEq

/-- A reaction with its author embedded. -/
structure ReactionView where
  _id : String
  targetType : String
  targetId : String
  author : AuthorView
  emoji : String
  deriving Repr, DecidableEq

/-- A post with author, comment count and reactions embedded. -/
structure PostView where
  _id : String
  author : AuthorView
  content : String
  createdAt : Int
  commentCount : Nat
  reactions : List ReactionView
  deriving Repr, DecidableEq

/-- A comment with author and reactions embedded. -/
structure CommentView where
  _id : String
  post : String
  author : AuthorView
  content : String
  createdAt : Int
  reactions : List ReactionView
  deriving Repr, DecidableEq

/-- `db.users.find((u) => u._id === userId)`. -/
def findUser (db : Db) (userId : String) : Option User :=
  db.users.find? (fun u => u._id == userId)

/-- JS `.map(f)` where `f` may throw: the first exception aborts the whole
request, so a single `none` makes the result `none`. -/
def mapAll (f : α → Option β) : List α → Option (List β)
  | [] => some []
  | a :: l =>
    match f a, mapAll f l with
    | some b, some bs => some (b :: bs)
    | _, _ => none

/-- Author embedding for one reaction; throws (`none`) if the author id is
absent from `db.users`. -/
def enrichReaction (db : Db) (r : Reaction) : Option ReactionView :=
  match findUser db r.author with
  | none => none
  | some a =>
    some { _id := r._id, targetType := r.targetType, targetId := r.targetId,
           author := { _id := a._id, name := a.name, avatarUrl := a.avatarUrl },
           emoji := r.emoji }

/-- The per-post enrichment of the posts listings: embed the author (no null
guard — `none` if absent), the reactions on the post (each author-embedded)
and `commentCount`. -/
def enrichPost (db : Db) (p : Post) : Option PostView :=
  match findUser db p.author with
  | none => none
  | some a =>
    match mapAll (enrichReaction db)
        (db.reactions.filter (fun r => r.targetType == "POST" && r.targetId == p._id)) with
    | none => none
    | some rs =>
      some { _id := p._id,
             author := { _id := a._id, name := a.name, avatarUrl := a.avatarUrl },
             content := p.content, createdAt := p.createdAt,
             commentCount := (db.comments.filter (fun c => c.post == p._id)).length,
             reactions := rs }

/-- The per-comment enrichment of the comments listing. -/
def enrichComment (db : Db) (c : Comment) : Option CommentView :=
  match findUser db c.author with
  | none => none
  | some a =>
    match mapAll (enrichReaction db)
        (db.reactions.filter (fun r => r.targetType == "COMMENT" && r.targetId == c._id)) with
    | none => none
    | some rs =>
      some { _id := c._id, post := c.post,
             author := { _id := a._id, name := a.name, avatarUrl := a.avatarUrl },
             content := c.content, createdAt := c.createdAt,
             reactions := rs }

/-! ### Feed selectors -/

/-- The unsorted home-feed candidate set of `GET /api/posts`:
`[...friendPosts, ...currentUserPosts]` where `friendPosts` keeps posts whose
author shares ANY friendship edge with the caller (the filter tests only edge
existence, not `status`), and `currentUserPosts` keeps the caller's posts. -/
def homeFeedUnsorted (db : Db) (currentUserId : String) : List Post :=
  let friendPosts := db.posts.filter (fun p =>
    db.friendships.any (fun f =>
      (f.fromId == currentUserId && f.toId == p.author) ||
      (f.toId == currentUserId && f.fromId == p.author)))
  let currentUserPosts := db.posts.filter (fun p => p.author == currentUserId)
  friendPosts ++ currentUserPosts

/-- The sorted home-feed candidate sequence (`feedPosts` after `.sort`). -/
def homeFeedCandidates (db : Db) (currentUserId : String) : List Post :=
  sortDesc Post.createdAt (homeFeedUnsorted db currentUserId)

/-- The unsorted candidate set of `GET /api/posts/user/:userId`. -/
def userPostsUnsorted (db : Db) (userId : String) : List Post :=
  db.posts.filter (fun p => p.author == userId)

/-- The sorted user-posts candidate sequence. -/
def userPostsCandidates (db : Db) (userId : String) : List Post :=
  sortDesc Post.createdAt (userPostsUnsorted db userId)

/-- The unsorted candidate set of `GET /api/posts/:postId/comments`. -/
def postCommentsUnsorted (db : Db) (postId : String) : List Comment :=
  db.comments.filter (fun c => c.post == postId)

/-- The sorted comments candidate sequence. -/
def postCommentsCandidates (db : Db) (postId : String) : List Comment :=
  sortDesc Comment.createdAt (postCommentsUnsorted db postId)

/-! ### Listing handlers (read path)

Each handler mirrors the corresponding controller body after validation:
resolve the default limit, build the sorted candidates, locate the cursor,
slice, compute `hasMore`, enrich the page, and read the last enriched item's
id for `nextCursor` (a throwing access on an empty page, guarded by
`hasMore`). `Option` renders the possible exceptions of enrichment. -/

/-- The `{posts, nextCursor, hasMore}` payload of the posts listings. -/
structure PostsResponse where
  posts : List PostView
  nextCursor : Option String
  hasMore : Bool
  deriving Repr, DecidableEq

/-- The `{comments, nextCursor, hasMore}` payload of the comments listing. -/
structure CommentsResponse where
  comments : List CommentView
  nextCursor : Option String
  hasMore : Bool
  deriving Repr, DecidableEq

/-- `GET /api/posts` after validation; `limit? = none` is an omitted `limit`
query parameter, defaulted by `const { cursor, limit = 5 } = ...`. -/
def homeFeedHandler (db : Db) (currentUserId : String)
    (cursor : Option String) (limit? : Option Nat) : Option PostsResponse :=
  let limit := limit?.getD 5
  let feedPosts := homeFeedCandidates db currentUserId
  let count := feedPosts.length
  let startIndex := startIndexFor feedPosts Post._id cursor
  let endIndex := startIndex + limit
  let postsAfterCursor := (feedPosts.drop startIndex).take limit
  let hasMore : Bool := decide ((count : Int) - (endIndex : Int) > 0)
  match mapAll (enrichPost db) postsAfterCursor with
  | none => none
  | some postsWithDetails =>
    if hasMore then
      match postsWithDetails.getLast? with
      | none => none
      | some lastPost =>
        some { posts := postsWithDetails, nextCursor := some lastPost._id, hasMore := true }
    else
      some { posts := postsWithDetails, nextCursor := none, hasMore := false }

/-- `GET /api/posts/user/:userId` after validation and the user-existence
check (`limit = 5` default); the listing itself, for an existing user. -/
def userPostsHandler (db : Db) (userId : String)
    (cursor : Option String) (limit? : Option Nat) : Option PostsResponse :=
  let limit := limit?.getD 5
  let userPosts := userPostsCandidates db userId
  let count := userPosts.length
  let startIndex := startIndexFor userPosts Post._id cursor
  let endIndex := startIndex + limit
  let postsAfterCursor := (userPosts.drop startIndex).take limit
  let hasMore : Bool := decide ((count : Int) - (endIndex : Int) > 0)
  match mapAll (enrichPost db) postsAfterCursor with
  | none => none
  | some postsWithDetails =>
    if hasMore then
      match postsWithDetails.getLast? with
      | none => none
      | some lastPost =>
        some { posts := postsWithDetails, nextCursor := some lastPost._id, hasMore := true }
    else
      some { posts := postsWithDetails, nextCursor := none, hasMore := false }

/-- `GET /api/posts/:postId/comments` after validation (`limit = 5`). -/
def postCommentsHandler (db : Db) (postId : String)
    (cursor : Option String) (limit? : Option Nat) : Option CommentsResponse :=
  let limit := limit?.getD 5
  let postComments := postCommentsCandidates db postId
  let count := postComments.length
  let startIndex := startIndexFor postComments Comment._id cursor
  let endIndex := startIndex + limit
  let commentsAfterCursor := (postComments.drop startIndex).take limit
  let hasMore : Bool := decide ((count : Int) - (endIndex : Int) > 0)
  match mapAll (enrichComment db) commentsAfterCursor with
  | none => none
  | some commentsWithDetails =>
    if hasMore then
      match commentsWithDetails.getLast? with
      | none => none
      | some lastComment =>
        some { comments := commentsWithDetails, nextCursor := some lastComment._id, hasMore := true }
    else
      some { comments := commentsWithDetails, nextCursor := none, hasMore := false }

/-- The `{users, totalPages, count, page, limit}` payload of `GET /api/users`.
`count = db.users.length - 1` and `totalPages = Math.ceil(count / limit)` are
JS number arithmetic, hence `Int` (ceiling division via `-((-count).fdiv limit)`). -/
structure UsersResponse where
  users : List User
  totalPages : Int
  count : Int
  page : Nat
  limit : Nat
  deriving Repr, DecidableEq

/-- `GET /api/users` after validation (`page = 0`, `limit = 10` defaults):
all users except the caller, offset-paginated. -/
def usersHandler (db : Db) (currentUserId : String)
    (page? : Option Nat) (limit? : Option Nat) : UsersResponse :=
  let page := page?.getD 0
  let limit := limit?.getD 10
  let startIndex := page * limit
  let endIndex := startIndex + limit
  let users := ((db.users.filter (fun u => u._id != currentUserId)).drop startIndex).take
    (endIndex - startIndex)
  let count : Int := (db.users.length : Int) - 1
  let totalPages : Int := -((-count).fdiv (limit : Int))
  { users := users, totalPages := totalPages, count := count, page := page, limit := limit }

/-- The read path of `GET /api/posts` as one request step over the shared
store: server.js mutates `db` only through its write endpoints, and the feed
read path builds every intermediate array with `filter`/`slice`/`map` (the
`sort` mutates only the freshly spread copy `[...friendPosts, ...currentUserPosts]`)
and never calls `saveToStorage`, so the step returns the store unchanged. -/
def homeFeedStep (db : Db) (currentUserId : String)
    (cursor : Option String) (limit? : Option Nat) : Option PostsResponse × Db :=
  (homeFeedHandler db currentUserId cursor limit?, db)

/-! ### The reaction upsert (`POST /api/reactions`) -/

/-- The upsert key of `db.reactions.findIndex(...)`: same target and author. -/
def reactionKeyMatches (targetType targetId author : String) (r : Reaction) : Bool :=
  r.targetType == targetType && r.targetId == targetId && r.author == author

/-- The reaction upsert after validation: locate the caller's existing
reaction on the target (`findIndex`); if found with the same emoji, remove
it (`splice(index, 1)`); if found with a different emoji, assign the new
emoji in place (`db.reactions[index].emoji = emoji`); otherwise push a fresh
reaction (`fresh` carries the new uuid and timestamp). -/
def upsertReaction (reactions : List Reaction) (targetType targetId author emoji : String)
    (fresh : Reaction) : List Reaction :=
  match findIdxOf (reactionKeyMatches targetType targetId author) reactions with
  | some i =>
    match reactions[i]? with
    | some existing =>
      if existing.emoji == emoji then reactions.eraseIdx i
      else reactions.set i { existing with emoji := emoji }
    | none => reactions
  | none => reactions ++ [fresh]

/-- Number of reactions stored for one (targetType, targetId, author) triple. -/
def tripleCount (reactions : List Reaction) (targetType targetId author : String) : Nat :=
  (reactions.filter (reactionKeyMatches targetType targetId author)).length

/-- The documented uniqueness invariant: at most one reaction per
(targetType, targetId, author) triple. -/
def ReactionInvariant (reactions : List Reaction) : Prop :=
  ∀ targetType targetId author, tripleCount reactions targetType targetId author ≤ 1

/-! ### Iterated pagination and the raw page -/

/-- Repeatedly following `nextCursor` from a given cursor until
`hasMore = false`, concatenating the returned pages; `fuel` bounds the
number of requests issued. -/
def paginateAll (seq : List α) (getId : α → String) (limit : Nat) :
    Nat → Option String → List α
  | 0, _ => []
  | fuel + 1, cursor =>
    let p := paginate seq getId cursor limit
    if p.hasMore then p.items ++ paginateAll seq getId limit fuel p.nextCursor
    else p.items

/-- The raw (pre-enrichment) page of `GET /api/posts`: the `postsAfterCursor`
slice of the handler. -/
def homeFeedRawPage (db : Db) (currentUserId : String) (cursor : Option String)
    (limit? : Option Nat) : List Post :=
  let limit := limit?.getD 5
  let feedPosts := homeFeedCandidates db currentUserId
  (feedPosts.drop (startIndexFor feedPosts Post._id cursor)).take limit

/-! ### Concrete stores used as failing inputs and witnesses -/

/-- Three posts with pairwise distinct ids, all by user u1. -/
def post1 : Post := ⟨"p1", "u1", "one", 30⟩

def post2 : Post := ⟨"p2", "u1", "two", 20⟩

def post3 : Post := ⟨"p3", "u1", "three", 10⟩

/-- A post authored by u2. -/
def pendingPost : Post := ⟨"p9", "u2", "hello", 50⟩

/-- A post whose author id "ghost" is absent from every store below. -/
def orphanPost : Post := ⟨"p8", "ghost", "hi", 40⟩

def userAlice : User := ⟨"u1", "Alice", "alice.png"⟩

def userBob : User := ⟨"u2", "Bob", "bob.png"⟩

/-- A store in which the only friendship edge between u1 and u2 is PENDING,
and u2 has a post: the spec's concrete scenario 4 situation. -/
def dbPending : Db :=
  { users := [userAlice, userBob]
    posts := [pendingPost]
    comments := []
    reactions := []
    friendships := [⟨"f1", "u1", "u2", "PENDING"⟩] }

/-- A store in which u1 has an ACCEPTED friendship with the id "ghost" that
matches no user, and a post authored by "ghost" exists. -/
def dbOrphan : Db :=
  { users := [userAlice]
    posts := [orphanPost]
    comments := []
    reactions := []
    friendships := [⟨"f1", "u1", "ghost", "ACCEPTED"⟩] }

/-- Two posts by u1 sharing one timestamp. -/
def tiePost1 : Post := ⟨"t1", "u1", "first", 7⟩

def tiePost2 : Post := ⟨"t2", "u1", "second", 7⟩

/-- A store whose home feed for u1 holds two posts with equal `createdAt`. -/
def dbTie : Db :=
  { users := [userAlice]
    posts := [tiePost1, tiePost2]
    comments := []
    reactions := []
    friendships := [] }

/-- A fresh reaction as built by the upsert's create branch. -/
def freshReaction : Reaction := ⟨"r1", "POST", "p1", "u1", "L"⟩

/-! ### Helper lemmas about `findIdxOf` -/

theorem findIdxOf_eq_none_iff {p : α → Bool} {l : List α} :
    findIdxOf p l = none ↔ ∀ a ∈ l, p a = false := by
  induction l with
  | nil => simp [findIdxOf]
  | cons a l ih =>
    by_cases h : p a
    · simp [findIdxOf, h]
    · simp [findIdxOf, h, ih]

theorem findIdxOf_eq_some {p : α → Bool} {l : List α} {i : Nat}
    (h : findIdxOf p l = some i) :
    ∃ hi : i < l.length, p (l.get ⟨i, hi⟩) = true := by
  induction l generalizing i with
  | nil => simp [findIdxOf] at h
  | cons a l ih =>
    by_cases hp : p a
    · simp only [findIdxOf, hp, if_pos, Option.some.injEq] at h
      subst h
      exact ⟨Nat.succ_pos _, hp⟩
    · simp only [findIdxOf, hp, if_neg, Bool.false_eq_true, not_false_iff,
        Option.map_eq_some'] at h
      obtain ⟨j, hj, rfl⟩ := h
      obtain ⟨hjl, hpj⟩ := ih hj
      exact ⟨Nat.succ_lt_succ hjl, hpj⟩

theorem findIdxOf_of_nodup {getId : α → String} {l : List α}
    (hn : (l.map getId).Nodup) {i : Nat} (hi : i < l.length) :
    findIdxOf (fun x => getId x == getId l[i]) l = some i := by
  induction l generalizing i with
  | nil => exact absurd hi (by simp)
  | cons a l ih =>
    rw [List.map_cons, List.nodup_cons] at hn
    cases i with
    | zero => simp [findIdxOf]
    | succ j =>
      have hj : j < l.length := Nat.lt_of_succ_lt_succ hi
      have hmem : getId l[j] ∈ l.map getId :=
        List.mem_map_of_mem getId (List.getElem_mem hj)
      have hne : (getId a == getId l[j]) = false := by
        simp only [beq_eq_false_iff_ne, ne_eq]
        intro hcontr
        exact hn.1 (hcontr ▸ hmem)
      have hgl : (a :: l)[j + 1] = l[j] := rfl
      rw [hgl]
      simp only [findIdxOf, hne, Bool.false_eq_true, if_neg, not_false_iff,
        ih hn.2 hj, Option.map_some']

/-! ### Helper lemmas about `startIndexFor` and `paginate` -/

theorem startIndexFor_none (seq : List α) (getId : α → String) :
    startIndexFor seq getId none = 0 := rfl

theorem startIndexFor_not_found {seq : List α} {getId : α → String} {c : String}
    (h : ∀ x ∈ seq, getId x ≠ c) :
    startIndexFor seq getId (some c) = 0 := by
  unfold startIndexFor
  by_cases hc : c = ""
  · simp [hc]
  · have : findIdxOf (fun x => getId x == c) seq = none :=
      findIdxOf_eq_none_iff.mpr (fun a ha => by simpa using h a ha)
    simp [hc, this]

theorem startIndexFor_found {seq : List α} {getId : α → String}
    (hn : (seq.map getId).Nodup) {i : Nat} (hi : i < seq.length)
    (hne : getId seq[i] ≠ "") :
    startIndexFor seq getId (some (getId seq[i])) = i + 1 := by
  unfold startIndexFor
  simp [hne, findIdxOf_of_nodup hn hi]

theorem paginate_items (seq : List α) (getId : α → String) (cursor : Option String)
    (limit : Nat) :
    (paginate seq getId cursor limit).items =
      (seq.drop (startIndexFor seq getId cursor)).take limit := rfl

theorem paginate_hasMore_iff (seq : List α) (getId : α → String) (cursor : Option String)
    (limit : Nat) :
    (paginate seq getId cursor limit).hasMore = true ↔
      startIndexFor seq getId cursor + limit < seq.length := by
  simp only [paginate, decide_eq_true_eq]
  omega

theorem paginate_items_length (seq : List α) (getId : α → String) (cursor : Option String)
    (limit : Nat) :
    (paginate seq getId cursor limit).items.length =
      min limit (seq.length - startIndexFor seq getId cursor) := by
  simp [paginate]

theorem paginate_items_getElem? (seq : List α) (getId : α → String) (cursor : Option String)
    (limit : Nat) {j : Nat} (hj : j < limit) :
    (paginate seq getId cursor limit).items[j]? =
      seq[startIndexFor seq getId cursor + j]? := by
  simp only [paginate]
  rw [List.getElem?_take_of_lt hj, List.getElem?_drop]

theorem paginate_nextCursor_eq (seq : List α) (getId : α → String) (cursor : Option String)
    (limit : Nat) :
    (paginate seq getId cursor limit).nextCursor =
      if (paginate seq getId cursor limit).hasMore then
        (paginate seq getId cursor limit).items.getLast?.map getId
      else none := rfl

theorem paginate_items_length_of_hasMore {seq : List α} {getId : α → String}
    {cursor : Option String} {limit : Nat}
    (hm : (paginate seq getId cursor limit).hasMore = true) :
    (paginate seq getId cursor limit).items.length = limit := by
  have hlt := (paginate_hasMore_iff seq getId cursor limit).mp hm
  rw [paginate_items_length]
  omega

theorem paginate_getLast?_of_hasMore {seq : List α} {getId : α → String}
    {cursor : Option String} {limit : Nat} (hl : 0 < limit)
    (hm : (paginate seq getId cursor limit).hasMore = true) :
    ∃ h : startIndexFor seq getId cursor + limit - 1 < seq.length,
      (paginate seq getId cursor limit).items.getLast? =
        some seq[startIndexFor seq getId cursor + limit - 1] := by
  have hlt := (paginate_hasMore_iff seq getId cursor limit).mp hm
  have hlen := paginate_items_length_of_hasMore hm
  have hidx : startIndexFor seq getId cursor + limit - 1 < seq.length := by omega
  refine ⟨hidx, ?_⟩
  rw [List.getLast?_eq_getElem?, hlen,
    paginate_items_getElem? seq getId cursor limit (by omega : limit - 1 < limit)]
  have harith : startIndexFor seq getId cursor + (limit - 1) =
      startIndexFor seq getId cursor + limit - 1 := by omega
  rw [harith, List.getElem?_eq_getElem hidx]

/-- C3: with no cursor the page starts at index 0; with a cursor whose id
occurs at index `i` (ids are unique and nonempty, as the system's uuids are)
the page starts at `i + 1`; with a cursor id absent from the sequence the
start index is 0 and the whole paginator output — and, for the home feed,
the whole handler output — equals that of supplying no cursor. -/
theorem claim_C3_cursor_resolution (seq : List α) (getId : α → String) (limit : Nat) :
    startIndexFor seq getId none = 0 ∧
    (∀ (i : Nat) (hi : i < seq.length), (seq.map getId).Nodup → getId seq[i] ≠ "" →
      startIndexFor seq getId (some (getId seq[i])) = i + 1) ∧
    (∀ c : String, (∀ x ∈ seq, getId x ≠ c) →
      startIndexFor seq getId (some c) = 0 ∧
      paginate seq getId (some c) limit = paginate seq getId none limit) ∧
    (∀ (db : Db) (currentUserId c : String) (limit? : Option Nat),
      (∀ p ∈ homeFeedCandidates db currentUserId, p._id ≠ c) →
      homeFeedHandler db currentUserId (some c) limit? =
        homeFeedHandler db currentUserId none limit?) := by
  refine ⟨rfl, fun i hi hn hne => startIndexFor_found hn hi hne, fun c hc => ?_, ?_⟩
  · have h0 := startIndexFor_not_found hc
    exact ⟨h0, by simp only [paginate, h0, startIndexFor_none]⟩
  · intro db currentUserId c limit? hc
    have h0 := startIndexFor_not_found hc
    simp only [homeFeedHandler, h0, startIndexFor_none]

/-- C4: the returned page is the slice `[start, start + limit)` clipped to
the sequence length; `hasMore` is `count - (start + limit) > 0`;
`nextCursor` is the id of the page's last item when `hasMore` and null
otherwise; an empty sequence yields the empty page with `hasMore = false`
and `nextCursor = null`; and (ids being unique and nonempty) a cursor equal
to the last item's id yields an empty page with `hasMore = false`. -/
theorem claim_C4_page_contract (seq : List α) (getId : α → String) (cursor : Option String)
    (limit : Nat) (hl : 0 < limit) :
    ((paginate seq getId cursor limit).items.length =
      min limit (seq.length - startIndexFor seq getId cursor)) ∧
    (∀ j : Nat, j < (paginate seq getId cursor limit).items.length →
      (paginate seq getId cursor limit).items[j]? =
        seq[startIndexFor seq getId cursor + j]?) ∧
    ((paginate seq getId cursor limit).hasMore = true ↔
      (seq.length : Int) - (startIndexFor seq getId cursor + limit : Nat) > 0) ∧
    ((paginate seq getId cursor limit).hasMore = true →
      ∃ lastItem, (paginate seq getId cursor limit).items.getLast? = some lastItem ∧
        (paginate seq getId cursor limit).nextCursor = some (getId lastItem)) ∧
    ((paginate seq getId cursor limit).hasMore = false →
      (paginate seq getId cursor limit).nextCursor = none) ∧
    (seq = [] → (paginate seq getId cursor limit).items = [] ∧
      (paginate seq getId cursor limit).hasMore = false ∧
      (paginate seq getId cursor limit).nextCursor = none) ∧
    ((seq.map getId).Nodup → ∀ h : 0 < seq.length,
      getId seq[seq.length - 1] ≠ "" →
      (paginate seq getId (some (getId seq[seq.length - 1])) limit).items = [] ∧
      (paginate seq getId (some (getId seq[seq.length - 1])) limit).hasMore = false) := by
  refine ⟨paginate_items_length seq getId cursor limit, ?_, ?_, ?_, ?_, ?_, ?_⟩
  · intro j hj
    have hjl : j < limit := by
      have := paginate_items_length seq getId cursor limit
      omega
    exact paginate_items_getElem? seq getId cursor limit hjl
  · rw [paginate_hasMore_iff]
    constructor <;> intro h <;> omega
  · intro hm
    obtain ⟨hidx, hlast⟩ := paginate_getLast?_of_hasMore hl hm
    refine ⟨_, hlast, ?_⟩
    rw [paginate_nextCursor_eq, hm, if_pos rfl, hlast, Option.map_some']
  · intro hm
    rw [paginate_nextCursor_eq, hm]
    simp
  · intro hemp
    subst hemp
    have hm : (paginate ([] : List α) getId cursor limit).hasMore = false := by
      rw [Bool.eq_false_iff]
      intro hcontr
      have := (paginate_hasMore_iff _ getId cursor limit).mp hcontr
      simp at this
    refine ⟨by simp [paginate], hm, ?_⟩
    rw [paginate_nextCursor_eq, hm]
    simp
  · intro hn hpos hne
    have hi : seq.length - 1 < seq.length := by omega
    have hs := startIndexFor_found hn hi hne
    have hstart : startIndexFor seq getId (some (getId seq[seq.length - 1])) = seq.length := by
      rw [hs]; omega
    have hm : (paginate seq getId (some (getId seq[seq.length - 1])) limit).hasMore = false := by
      rw [Bool.eq_false_iff]
      intro hcontr
      have := (paginate_hasMore_iff seq getId _ limit).mp hcontr
      rw [hstart] at this
      omega
    refine ⟨?_, hm⟩
    rw [paginate_items, hstart, List.drop_eq_nil_of_le (le_refl _), List.take_nil]

/-- C10: with a positive limit, whenever `hasMore` is true the start index
is strictly below the sequence length, the page is non-empty, and the
last-element access behind `nextCursor` succeeds (`nextCursor` is some). -/
theorem claim_C10_nextCursor_in_bounds (seq : List α) (getId : α → String)
    (cursor : Option String) (limit : Nat) (hl : 0 < limit)
    (hm : (paginate seq getId cursor limit).hasMore = true) :
    startIndexFor seq getId cursor < seq.length ∧
    (paginate seq getId cursor limit).items ≠ [] ∧
    ((paginate seq getId cursor limit).items.getLast?).isSome = true ∧
    ((paginate seq getId cursor limit).nextCursor).isSome = true := by
  have hlt := (paginate_hasMore_iff seq getId cursor limit).mp hm
  have hlen := paginate_items_length_of_hasMore hm
  have hne : (paginate seq getId cursor limit).items ≠ [] := by
    intro hcontr
    rw [hcontr] at hlen
    simp at hlen
    omega
  refine ⟨by omega, hne, List.getLast?_isSome.mpr hne, ?_⟩
  rw [paginate_nextCursor_eq, hm, if_pos rfl, Option.isSome_map']
  exact List.getLast?_isSome.mpr hne

theorem paginateAll_drop {seq : List α} {getId : α → String} {limit : Nat}
    (hn : (seq.map getId).Nodup) (hne : ∀ x ∈ seq, getId x ≠ "") (hl : 0 < limit) :
    ∀ (fuel : Nat) (cursor : Option String),
      seq.length ≤ startIndexFor seq getId cursor + fuel * limit →
      paginateAll seq getId limit fuel cursor =
        seq.drop (startIndexFor seq getId cursor) := by
  intro fuel
  induction fuel with
  | zero =>
    intro cursor hlen
    simp only [Nat.zero_mul, Nat.add_zero] at hlen
    rw [paginateAll, List.drop_eq_nil_of_le hlen]
  | succ fuel ih =>
    intro cursor hlen
    rw [Nat.succ_mul] at hlen
    by_cases hm : (paginate seq getId cursor limit).hasMore = true
    · have hlt := (paginate_hasMore_iff seq getId cursor limit).mp hm
      obtain ⟨hidx, hlast⟩ := paginate_getLast?_of_hasMore hl hm
      have hnb : getId seq[startIndexFor seq getId cursor + limit - 1] ≠ "" :=
        hne _ (List.getElem_mem hidx)
      have hres : startIndexFor seq getId
          (some (getId seq[startIndexFor seq getId cursor + limit - 1])) =
          startIndexFor seq getId cursor + limit := by
        rw [startIndexFor_found hn hidx hnb]
        omega
      have hnc : (paginate seq getId cursor limit).nextCursor =
          some (getId seq[startIndexFor seq getId cursor + limit - 1]) := by
        rw [paginate_nextCursor_eq, hm, if_pos rfl, hlast, Option.map_some']
      rw [paginateAll, if_pos hm, hnc, ih _ (by rw [hres]; omega), hres, paginate_items]
      rw [show seq.drop (startIndexFor seq getId cursor + limit) =
        (seq.drop (startIndexFor seq getId cursor)).drop limit from
          (List.drop_drop limit (startIndexFor seq getId cursor) seq).symm]
      exact List.take_append_drop limit (seq.drop (startIndexFor seq getId cursor))
    · have hge : seq.length ≤ startIndexFor seq getId cursor + limit := by
        by_contra hcontr
        exact hm ((paginate_hasMore_iff seq getId cursor limit).mpr (by omega))
      rw [paginateAll, if_neg hm, paginate_items,
        List.take_of_length_le (by rw [List.length_drop]; omega)]

/-- C5: for pairwise-distinct (and, as the system's uuids are, nonempty)
item ids and a positive limit, concatenating every page obtained by
following `nextCursor` from the first page until `hasMore = false`
reproduces the full candidate sequence in order. -/
theorem claim_C5_pagination_coverage (seq : List α) (getId : α → String) (limit : Nat)
    (hn : (seq.map getId).Nodup) (hne : ∀ x ∈ seq, getId x ≠ "") (hl : 0 < limit) :
    paginateAll seq getId limit (seq.length + 1) none = seq := by
  have hmul : (seq.length + 1) * 1 ≤ (seq.length + 1) * limit :=
    Nat.mul_le_mul_left _ hl
  have h := paginateAll_drop hn hne hl (seq.length + 1) none (by
    rw [startIndexFor_none]
    omega)
  rw [h, startIndexFor_none, List.drop_zero]

/-! ### Sorting lemmas -/

theorem sortDesc_pairwise (key : α → Int) (l : List α) :
    (sortDesc key l).Pairwise (fun a b => key b ≤ key a) :=
  (List.sorted_insertionSort (descBy key) l).imp (fun h => h)

theorem sortDesc_stable (key : α → Int) {l : List α} {a b : α}
    (hab : key a = key b) (h : List.Sublist [a, b] l) :
    List.Sublist [a, b] (sortDesc key l) :=
  List.pair_sublist_insertionSort (le_of_eq hab.symm) h

/-- C6: all three candidate sequences are sorted descending by `createdAt`,
and the sort is stable: adjacent-in-scan-order pairs with equal timestamps
keep their relative order from the unsorted scan. -/
theorem claim_C6_ordering_stability (db : Db) (currentUserId userId postId : String) :
    ((homeFeedCandidates db currentUserId).Pairwise
        (fun a b => b.createdAt ≤ a.createdAt) ∧
      (userPostsCandidates db userId).Pairwise (fun a b => b.createdAt ≤ a.createdAt) ∧
      (postCommentsCandidates db postId).Pairwise
        (fun a b => b.createdAt ≤ a.createdAt)) ∧
    ((∀ a b : Post, a.createdAt = b.createdAt →
        List.Sublist [a, b] (homeFeedUnsorted db currentUserId) →
        List.Sublist [a, b] (homeFeedCandidates db currentUserId)) ∧
      (∀ a b : Post, a.createdAt = b.createdAt →
        List.Sublist [a, b] (userPostsUnsorted db userId) →
        List.Sublist [a, b] (userPostsCandidates db userId)) ∧
      (∀ a b : Comment, a.createdAt = b.createdAt →
        List.Sublist [a, b] (postCommentsUnsorted db postId) →
        List.Sublist [a, b] (postCommentsCandidates db postId))) := by
  refine ⟨⟨?_, ?_, ?_⟩, ⟨?_, ?_, ?_⟩⟩
  · exact sortDesc_pairwise Post.createdAt _
  · exact sortDesc_pairwise Post.createdAt _
  · exact sortDesc_pairwise Comment.createdAt _
  · exact fun a b hab h => sortDesc_stable Post.createdAt hab h
  · exact fun a b hab h => sortDesc_stable Post.createdAt hab h
  · exact fun a b hab h => sortDesc_stable Comment.createdAt hab h

/-! ### Reaction upsert lemmas -/

theorem tripleCount_append (rs rs' : List Reaction) (targetType targetId author : String) :
    tripleCount (rs ++ rs') targetType targetId author =
      tripleCount rs targetType targetId author +
        tripleCount rs' targetType targetId author := by
  simp [tripleCount, List.filter_append]

theorem length_filter_set (p : α → Bool) :
    ∀ (l : List α) (i : Nat) (a : α),
      (∀ b, l[i]? = some b → p a = p b) →
      ((l.set i a).filter p).length = (l.filter p).length := by
  intro l
  induction l with
  | nil => intro i a _; rfl
  | cons x l ih =>
    intro i a hpb
    cases i with
    | zero =>
      have hp : p a = p x := hpb x (by simp)
      simp only [List.set_cons_zero, List.filter_cons, hp]
      cases hx : p x <;> simp [hx]
    | succ j =>
      have hpb' : ∀ b, l[j]? = some b → p a = p b :=
        fun b hb => hpb b (by simpa using hb)
      simp only [List.set_cons_succ, List.filter_cons]
      cases hx : p x <;> simp [ih j a hpb']

/-- C7: the reaction upsert preserves the at-most-one-per-triple invariant,
and behaves as: no prior reaction by the caller on the target → the fresh
reaction is appended; a prior reaction with the same emoji → it is removed
(`splice`); a prior reaction with a different emoji → its emoji is assigned
in place (`set`) and its id is unchanged. -/
theorem claim_C7_reaction_upsert (rs : List Reaction)
    (targetType targetId author emoji : String) (fresh : Reaction)
    (hT : fresh.targetType = targetType) (hI : fresh.targetId = targetId)
    (hA : fresh.author = author) :
    (ReactionInvariant rs →
      ReactionInvariant (upsertReaction rs targetType targetId author emoji fresh)) ∧
    ((∀ r ∈ rs, reactionKeyMatches targetType targetId author r = false) →
      upsertReaction rs targetType targetId author emoji fresh = rs ++ [fresh]) ∧
    (∀ (i : Nat) (r : Reaction),
      findIdxOf (reactionKeyMatches targetType targetId author) rs = some i →
      rs[i]? = some r →
      (r.emoji = emoji →
        upsertReaction rs targetType targetId author emoji fresh = rs.eraseIdx i) ∧
      (r.emoji ≠ emoji →
        upsertReaction rs targetType targetId author emoji fresh =
          rs.set i { r with emoji := emoji } ∧
        Reaction._id { r with emoji := emoji } = r._id)) := by
  refine ⟨?_, ?_, ?_⟩
  · intro hinv
    cases hf : findIdxOf (reactionKeyMatches targetType targetId author) rs with
    | none =>
      have hno : ∀ r ∈ rs, reactionKeyMatches targetType targetId author r = false :=
        findIdxOf_eq_none_iff.mp hf
      have hval : upsertReaction rs targetType targetId author emoji fresh = rs ++ [fresh] := by
        unfold upsertReaction
        rw [hf]
      rw [hval]
      intro targetType' targetId' author'
      rw [tripleCount_append]
      by_cases hfresh : reactionKeyMatches targetType' targetId' author' fresh = true
      · simp only [reactionKeyMatches, Bool.and_eq_true, beq_iff_eq] at hfresh
        obtain ⟨⟨h1, h2⟩, h3⟩ := hfresh
        have e1 : targetType' = targetType := h1.symm.trans hT
        have e2 : targetId' = targetId := h2.symm.trans hI
        have e3 : author' = author := h3.symm.trans hA
        rw [e1, e2, e3]
        have hzero : tripleCount rs targetType targetId author = 0 := by
          unfold tripleCount
          rw [List.filter_eq_nil_iff.mpr (fun a ha => by simp [hno a ha])]
          rfl
        have hone : tripleCount [fresh] targetType targetId author ≤ 1 := by
          have := List.length_filter_le (reactionKeyMatches targetType targetId author) [fresh]
          simpa [tripleCount] using this
        omega
      · have hzero : tripleCount [fresh] targetType' targetId' author' = 0 := by
          rw [Bool.not_eq_true] at hfresh
          simp [tripleCount, List.filter_cons, hfresh]
        rw [hzero]
        have := hinv targetType' targetId' author'
        omega
    | some i =>
      obtain ⟨hi, hpi⟩ := findIdxOf_eq_some hf
      have hr : rs[i]? = some rs[i] := List.getElem?_eq_getElem hi
      by_cases he : (rs[i].emoji == emoji) = true
      · have hval : upsertReaction rs targetType targetId author emoji fresh =
            rs.eraseIdx i := by
          simp only [upsertReaction, hf, hr]
          rw [if_pos he]
        rw [hval]
        intro targetType' targetId' author'
        have hsub : List.Sublist
            ((rs.eraseIdx i).filter (reactionKeyMatches targetType' targetId' author'))
            (rs.filter (reactionKeyMatches targetType' targetId' author')) :=
          (List.eraseIdx_sublist rs i).filter _
        exact le_trans hsub.length_le (hinv targetType' targetId' author')
      · have hval : upsertReaction rs targetType targetId author emoji fresh =
            rs.set i { rs[i] with emoji := emoji } := by
          simp only [upsertReaction, hf, hr]
          rw [if_neg he]
        rw [hval]
        intro targetType' targetId' author'
        have hlen : ((rs.set i { rs[i] with emoji := emoji }).filter
              (reactionKeyMatches targetType' targetId' author')).length =
            (rs.filter (reactionKeyMatches targetType' targetId' author')).length :=
          length_filter_set _ rs i _ (fun b hb => by
            rw [hr, Option.some.injEq] at hb
            subst hb
            rfl)
        have := hinv targetType' targetId' author'
        unfold tripleCount at this ⊢
        omega
  · intro hno
    have hf : findIdxOf (reactionKeyMatches targetType targetId author) rs = none :=
      findIdxOf_eq_none_iff.mpr hno
    unfold upsertReaction
    rw [hf]
  · intro i r hf hr
    refine ⟨?_, ?_⟩
    · intro he
      simp only [upsertReaction, hf, hr]
      rw [if_pos (by simp [he])]
    · intro he
      refine ⟨?_, rfl⟩
      simp only [upsertReaction, hf, hr]
      rw [if_neg (by simp [he])]

/-! ### C1, C2: feed membership and orphan handling -/

/-- C1 (the claim fails on the code): in `dbPending` the only friendship
edge between u1 and u2 is PENDING and no ACCEPTED edge exists, yet u2's
post is u1's entire home-feed candidate set — the feed filter of
`GET /api/posts` tests only edge existence, never `f.status`. -/
theorem claim_C1_pending_friend_included :
    (∀ f ∈ dbPending.friendships, f.status = "PENDING") ∧
    pendingPost.author = "u2" ∧
    homeFeedCandidates dbPending "u1" = [pendingPost] := by
  decide

theorem mapAll_eq_none {f : α → Option β} {l : List α} (h : ∃ a ∈ l, f a = none) :
    mapAll f l = none := by
  induction l with
  | nil => simp at h
  | cons a l ih =>
    obtain ⟨x, hx, hfx⟩ := h
    rcases List.mem_cons.mp hx with rfl | hmem
    · simp only [mapAll, hfx]
    · rw [mapAll, ih ⟨x, hmem, hfx⟩]
      cases f a <;> rfl

/-- C2 counterexample: in `dbOrphan` the raw home-feed page of u1 contains
a post whose author id is absent from the users table, and the listing
returns the thrown `TypeError` (`none`), not a well-formed result with a
null embedded author. -/
theorem claim_C2_counterexample :
    findUser dbOrphan orphanPost.author = none ∧
    orphanPost ∈ homeFeedRawPage dbOrphan "u1" none none ∧
    enrichPost dbOrphan orphanPost = none ∧
    homeFeedHandler dbOrphan "u1" none none = none := by
  decide

/-- C2 amended: enriching a post, comment or reaction whose author id is
absent from the users table throws (yields `none`) instead of embedding a
null author, and a listing whose raw page contains such a post aborts with
an error rather than returning a well-formed result. -/
theorem claim_C2_orphan_author_throws :
    (∀ (db : Db) (p : Post), findUser db p.author = none → enrichPost db p = none) ∧
    (∀ (db : Db) (c : Comment), findUser db c.author = none → enrichComment db c = none) ∧
    (∀ (db : Db) (r : Reaction), findUser db r.author = none → enrichReaction db r = none) ∧
    (∀ (db : Db) (currentUserId : String) (cursor : Option String) (limit? : Option Nat),
      (∃ p ∈ homeFeedRawPage db currentUserId cursor limit?, findUser db p.author = none) →
      homeFeedHandler db currentUserId cursor limit? = none) := by
  refine ⟨?_, ?_, ?_, ?_⟩
  · intro db p h
    simp only [enrichPost, h]
  · intro db c h
    simp only [enrichComment, h]
  · intro db r h
    simp only [enrichReaction, h]
  · intro db currentUserId cursor limit? h
    have hnone : mapAll (enrichPost db)
        (homeFeedRawPage db currentUserId cursor limit?) = none :=
      mapAll_eq_none (by
        obtain ⟨p, hp, hfp⟩ := h
        exact ⟨p, hp, by simp only [enrichPost, hfp]⟩)
    simp only [homeFeedRawPage] at hnone
    simp only [homeFeedHandler]
    rw [hnone]

/-- Witness for the amended C2 statement at the concrete orphan store. -/
theorem claim_C2_orphan_witness :
    enrichPost dbOrphan orphanPost = none ∧
    homeFeedHandler dbOrphan "u1" none none = none :=
  ⟨claim_C2_orphan_author_throws.1 dbOrphan orphanPost (by decide),
    claim_C2_orphan_author_throws.2.2.2 dbOrphan "u1" none none
      ⟨orphanPost, by decide, by decide⟩⟩

/-! ### C8, C9: defaults and statelessness -/

/-- C8: an omitted `limit` defaults to 5 for the home feed and the comments
listing, 10 for the users listing (and 5 for the user-posts feed). -/
theorem claim_C8_default_limits (db : Db) (currentUserId userId postId : String)
    (cursor : Option String) (page? : Option Nat) :
    homeFeedHandler db currentUserId cursor none =
      homeFeedHandler db currentUserId cursor (some 5) ∧
    postCommentsHandler db postId cursor none =
      postCommentsHandler db postId cursor (some 5) ∧
    usersHandler db currentUserId page? none = usersHandler db currentUserId page? (some 10) ∧
    userPostsHandler db userId cursor none = userPostsHandler db userId cursor (some 5) :=
  ⟨rfl, rfl, rfl, rfl⟩

/-- C9: the feed request step returns the store unchanged, a second
invocation on the resulting store returns the identical response, and the
paginator output depends only on the candidate sequence, cursor and limit —
two stores with equal candidate sequences paginate identically. -/
theorem claim_C9_paginator_stateless (db : Db) (currentUserId : String)
    (cursor : Option String) (limit? : Option Nat) :
    (homeFeedStep db currentUserId cursor limit?).2 = db ∧
    homeFeedStep (homeFeedStep db currentUserId cursor limit?).2 currentUserId cursor limit? =
      homeFeedStep db currentUserId cursor limit? ∧
    (∀ (db' : Db) (currentUserId' : String),
      homeFeedCandidates db' currentUserId' = homeFeedCandidates db currentUserId →
      ∀ (cursor' : Option String) (limit : Nat),
        paginate (homeFeedCandidates db' currentUserId') Post._id cursor' limit =
          paginate (homeFeedCandidates db currentUserId) Post._id cursor' limit) :=
  ⟨rfl, rfl, fun _ _ h _ _ => by rw [h]⟩

/-! ### Witnesses at concrete inputs -/

/-- Witness for C3: a present cursor starts after its index; an absent
cursor id reproduces the no-cursor page. -/
theorem claim_C3_witness :
    startIndexFor [post1, post2, post3] Post._id (some "p1") = 1 ∧
    paginate [post1, post2, post3] Post._id (some "zz") 2 =
      paginate [post1, post2, post3] Post._id none 2 := by
  have h := claim_C3_cursor_resolution [post1, post2, post3] Post._id 2
  exact ⟨h.2.1 0 (by decide) (by decide) (by decide), (h.2.2.1 "zz" (by decide)).2⟩

/-- Witness for C4: the last item's id as cursor yields the empty page with
`hasMore = false`. -/
theorem claim_C4_witness :
    (paginate [post1, post2, post3] Post._id (some "p3") 2).items = [] ∧
    (paginate [post1, post2, post3] Post._id (some "p3") 2).hasMore = false :=
  (claim_C4_page_contract [post1, post2, post3] Post._id none 2 (by decide)).2.2.2.2.2.2
    (by decide) (by decide) (by decide)

/-- Witness for C5: following cursors over three posts with limit 2
reproduces the sequence. -/
theorem claim_C5_witness :
    paginateAll [post1, post2, post3] Post._id 2 4 none = [post1, post2, post3] :=
  claim_C5_pagination_coverage [post1, post2, post3] Post._id 2 (by decide) (by decide)
    (by decide)

/-- Witness for C6 at a store with two equal-timestamp posts. -/
theorem claim_C6_witness :
    (homeFeedCandidates dbTie "u1").Pairwise (fun a b => b.createdAt ≤ a.createdAt) ∧
    List.Sublist [tiePost1, tiePost2] (homeFeedCandidates dbTie "u1") := by
  have h := claim_C6_ordering_stability dbTie "u1" "u1" "p0"
  refine ⟨h.1.1, h.2.1 tiePost1 tiePost2 rfl ?_⟩
  have he : homeFeedUnsorted dbTie "u1" = [tiePost1, tiePost2] := by decide
  rw [he]

/-- Witness for C7: with no prior reaction the fresh reaction is appended. -/
theorem claim_C7_witness :
    upsertReaction [] "POST" "p1" "u1" "L" freshReaction = [freshReaction] :=
  (claim_C7_reaction_upsert [] "POST" "p1" "u1" "L" freshReaction rfl rfl rfl).2.1
    (by simp)

/-- Witness for C9 at a concrete store. -/
theorem claim_C9_witness :
    (homeFeedStep dbTie "u1" none none).2 = dbTie ∧
    paginate (homeFeedCandidates dbTie "u1") Post._id none 5 =
      paginate (homeFeedCandidates dbTie "u1") Post._id none 5 :=
  ⟨(claim_C9_paginator_stateless dbTie "u1" none none).1,
    (claim_C9_paginator_stateless dbTie "u1" none none).2.2 dbTie "u1" rfl none 5⟩

/-- Witness for C10: a page with more items behind it is non-empty and its
`nextCursor` is present. -/
theorem claim_C10_witness :
    startIndexFor [post1, post2] Post._id none < 2 ∧
    (paginate [post1, post2] Post._id none 1).items ≠ [] ∧
    ((paginate [post1, post2] Post._id none 1).items.getLast?).isSome = true ∧
    ((paginate [post1, post2] Post._id none 1).nextCursor).isSome = true :=
  claim_C10_nextCursor_in_bounds [post1, post2] Post._id none 1 (by decide) (by decide)

end CoderComm
